import Mathlib

/-!
Shallow embedding of the curvature-extension engine of this repository:
the parallel-linear composition (bpexts/hbp/parallel/linear.py), the
diagonal-GGN extraction paths for linear and convolutional layers
(backpack/extensions/secondorder/diag_ggn), the dropout and softplus
elementwise derivatives (backpack/core/derivatives), the extension
configuration check (diag_ggn/__init__.py) and the reduction-factor
inference (test/extensions/problem.py).

Tensors are modelled as (nested) lists of rationals; a Python call that can
raise is modelled as `Except String`.  Utility functions of the repository
that are not under src/ are modelled from the specification and say so in
their doc comment.
-/

namespace Backpack

/-- Reindex a list to an optional ordered subset of row indices (the
subsampling specification of the spec, section 4.4): `none` keeps the full
batch, `some idx` selects the rows listed in `idx`, in order. -/
def subsampleList {α : Type} (xs : List α) : Option (List ℕ) → List α
  | none => xs
  | some idx => idx.filterMap (fun i => xs.get? i)

/-! ### Parallel series of linear layers (src/bpexts/hbp/parallel/linear.py) -/

/-- The Python class tag of a layer object, as inspected by
`l.__class__` in `HBPParallelLinear.__init__`. -/
inductive PyClass : Type
  | hbpLinear : PyClass
  | other : PyClass
deriving DecidableEq

/-- An `HBPLinear` layer: `in_features`, `out_features`, the weight matrix
(list of `out_features` rows of length `in_features`) and the optional bias
vector (length `out_features`). -/
structure HBPLinear : Type where
  in_features : ℕ
  out_features : ℕ
  weight : List (List ℚ)
  bias : Option (List ℚ)
deriving DecidableEq

/-- A Python object passed to the `HBPParallelLinear` constructor: a class
tag together with the layer payload. -/
structure PyLayer : Type where
  cls : PyClass
  lin : HBPLinear
deriving DecidableEq

/-- Translation of `HBPParallelLinear.__init__`: the constructor builds
`set(l.__class__ for l in layers)` and raises `ValueError` unless that set
equals the singleton set containing `HBPLinear`.  A finite set is modelled
by the deduplicated list; equality with the singleton set is equality with
the one-element list.  On success the group's children are the layers. -/
def HBPParallelLinear.init (layers : List PyLayer) : Except String (List HBPLinear) :=
  if (layers.map (fun l => l.cls)).dedup = [PyClass.hbpLinear] then
    Except.ok (layers.map (fun l => l.lin))
  else
    Except.error "Expecting layers of type HBPLinear"

/-- A parallel group: the sibling layers, the recorded output-feature
partition, and the optional shared mean-input buffer (`mean_input` is a
buffer installed by a forward hook; a group on which no forward pass ran
has none, which is modelled by `none`). -/
structure Group : Type where
  children : List HBPLinear
  out_features_list : List ℕ
  mean_input : Option (List ℚ)
deriving DecidableEq

/-- Translation of `HBPParallelLinear.unite`: computes the total
`out_features`, checks that the set of `in_features` values of the children
is a singleton, checks that the set of bias-presence flags is a singleton,
builds one `HBPLinear` whose weight is the row-wise concatenation of the
children's weights and whose bias (if present) is the concatenation of the
children's biases, wraps it through the constructor, and copies the
`mean_input` buffer.  The returned Bool is the "warning emitted" flag of
the final try-block: accessing a missing `self.mean_input` raises
`AttributeError`, which is caught and turned into a warning. -/
def unite (g : Group) : Except String (Group × Bool) :=
  let total_out := (g.children.map (fun m => m.out_features)).sum
  let in_features_set := (g.children.map (fun m => m.in_features)).dedup
  if in_features_set.length ≠ 1 then
    Except.error "Expect same in_features"
  else
    let the_in := in_features_set.headD 0
    let has_bias_set := (g.children.map (fun m => m.bias.isSome)).dedup
    if has_bias_set.length ≠ 1 then
      Except.error "Expect simultaneous presence/absence of bias"
    else
      let has_bias := has_bias_set.headD false
      let layer : HBPLinear :=
        { in_features := the_in
          out_features := total_out
          weight := (g.children.map (fun m => m.weight)).flatten
          bias :=
            if has_bias then some ((g.children.filterMap (fun m => m.bias)).flatten)
            else none }
      match HBPParallelLinear.init [{ cls := PyClass.hbpLinear, lin := layer }] with
      | Except.error e => Except.error e
      | Except.ok cs =>
          Except.ok ({ children := cs
                       out_features_list := [total_out]
                       mean_input := g.mean_input }, g.mean_input.isNone)

/-- The child layers built inside `HBPParallelLinear.split`: the source
forms the cumulative index pairs `(idx k, idx (k+1))` of the partition and
slices `linear.weight.data[i:j, :]` (and `linear.bias.data[i:j]` when a
bias is present).  Since `w[i:j]` is `take (j - i) (drop i w)`, the
recursion below takes the first `s` rows for each partition entry `s` and
recurses on the dropped remainder. -/
def mkSplitChildren (the_in : ℕ) : List ℕ → List (List ℚ) → Option (List ℚ) → List HBPLinear
  | [], _, _ => []
  | s :: rest, w, b =>
      { in_features := the_in
        out_features := s
        weight := w.take s
        bias := b.map (fun bv => bv.take s) } ::
        mkSplitChildren the_in rest (w.drop s) (b.map (fun bv => bv.drop s))

/-- Translation of `HBPParallelLinear.split`: first unites, then checks the
requested partition sums to `sum(united.out_features_list)`, then slices
the merged weight and bias into new children which are passed through the
constructor; the `mean_input` buffer is copied from the original group in
a try-block whose `AttributeError` branch is the warning flag. -/
def split (g : Group) (sizes : List ℕ) : Except String (Group × Bool) :=
  match unite g with
  | Except.error e => Except.error e
  | Except.ok (united, _) =>
      if sizes.sum ≠ united.out_features_list.sum then
        Except.error "Invalid splitting: sizes do not sum to total"
      else
        match united.children with
        | [] => Except.error "no submodule at index 0"
        | linear :: _ =>
            let layers := mkSplitChildren linear.in_features sizes linear.weight linear.bias
            match HBPParallelLinear.init
                (layers.map (fun l => { cls := PyClass.hbpLinear, lin := l })) with
            | Except.error e => Except.error e
            | Except.ok cs =>
                Except.ok ({ children := cs
                             out_features_list := sizes
                             mean_input := g.mean_input }, g.mean_input.isNone)

/-! ### Diagonal GGN for linear layers
(src/backpack/extensions/secondorder/diag_ggn/linear.py) -/

/-- The recorded state of a `torch.nn.Linear` module used by diagonal
extraction: the weight (rows = output features), optional bias, and the
recorded forward input (one row of `in_features` entries per sample). -/
structure LinearModule : Type where
  weight : List (List ℚ)
  bias : Option (List ℚ)
  input : List (List ℚ)
deriving DecidableEq

def LinearModule.out_features (m : LinearModule) : ℕ := m.weight.length

def LinearModule.in_features (m : LinearModule) : ℕ := (m.weight.headD []).length

/-- The extension state consulted by the parameter handlers: the
subsampling specification returned by `ext.get_subsampling()`. -/
structure GGNExtension : Type where
  subsampling : Option (List ℕ)
deriving DecidableEq

def GGNExtension.get_subsampling (e : GGNExtension) : Option (List ℕ) := e.subsampling

namespace LinUtils

/-- Modelled from the spec: `backpack.utils.linear.extract_weight_diagonal`
with `sum_batch=False` is not under src/.  Per section 4.3, the per-sample
weight diagonal entry `(o, i)` is `sum over r of (S[n,r,o] * X[n,i])^2`,
the sample axis is kept, and per section 4.4 the recorded input and the
backpropagated quantity are first reindexed by the subsampling
specification.  `backproped` is indexed `[sample][direction][output]`. -/
def extract_weight_diagonal_batch (m : LinearModule)
    (backproped : List (List (List ℚ))) (subsampling : Option (List ℕ)) :
    List (List (List ℚ)) :=
  ((subsampleList backproped subsampling).zip (subsampleList m.input subsampling)).map
    (fun p =>
      (List.range m.out_features).map (fun o =>
        (List.range m.in_features).map (fun i =>
          (p.1.map (fun srow => (srow.getD o 0 * p.2.getD i 0) ^ 2)).sum)))

/-- Modelled from the spec: `backpack.utils.linear.extract_weight_diagonal`
with `sum_batch=True` is not under src/.  Per section 4.3 the sum-batch
mode accumulates the same per-sample quantity over the (subsampled)
batch into one tensor shaped like the weight. -/
def extract_weight_diagonal_sum (m : LinearModule)
    (backproped : List (List (List ℚ))) (subsampling : Option (List ℕ)) :
    List (List ℚ) :=
  (List.range m.out_features).map (fun o =>
    (List.range m.in_features).map (fun i =>
      (((subsampleList backproped subsampling).zip (subsampleList m.input subsampling)).map
        (fun p => (p.1.map (fun srow => (srow.getD o 0 * p.2.getD i 0) ^ 2)).sum)).sum))

/-- Modelled from the spec: `backpack.utils.linear.extract_bias_diagonal`
with `sum_batch=False` is not under src/.  Per section 4.3 the per-sample
bias diagonal entry `o` is `sum over r of S[n,r,o]^2`, keeping the sample
axis, after reindexing by the subsampling specification. -/
def extract_bias_diagonal_batch (m : LinearModule)
    (backproped : List (List (List ℚ))) (subsampling : Option (List ℕ)) :
    List (List ℚ) :=
  (subsampleList backproped subsampling).map (fun s =>
    (List.range m.out_features).map (fun o =>
      (s.map (fun srow => srow.getD o 0 ^ 2)).sum))

/-- Modelled from the spec: `backpack.utils.linear.extract_bias_diagonal`
with `sum_batch=True` is not under src/.  Sum-batch mode accumulates the
per-sample bias diagonal over the (subsampled) batch. -/
def extract_bias_diagonal_sum (m : LinearModule)
    (backproped : List (List (List ℚ))) (subsampling : Option (List ℕ)) :
    List ℚ :=
  (List.range m.out_features).map (fun o =>
    ((subsampleList backproped subsampling).map (fun s =>
      (s.map (fun srow => srow.getD o 0 ^ 2)).sum)).sum)

end LinUtils

/-- Translation of `DiagGGNLinear.weight`: reads the subsampling
specification from the extension and calls the weight-diagonal extraction
with `sum_batch=True`. -/
def DiagGGNLinear.weight (ext : GGNExtension) (m : LinearModule)
    (backproped : List (List (List ℚ))) : List (List ℚ) :=
  LinUtils.extract_weight_diagonal_sum m backproped ext.get_subsampling

/-- Translation of `DiagGGNLinear.bias`: reads the subsampling
specification from the extension and calls the bias-diagonal extraction
with `sum_batch=True`. -/
def DiagGGNLinear.bias (ext : GGNExtension) (m : LinearModule)
    (backproped : List (List (List ℚ))) : List ℚ :=
  LinUtils.extract_bias_diagonal_sum m backproped ext.get_subsampling

/-- Translation of `BatchDiagGGNLinear.weight`: as `DiagGGNLinear.weight`
but with `sum_batch=False`. -/
def BatchDiagGGNLinear.weight (ext : GGNExtension) (m : LinearModule)
    (backproped : List (List (List ℚ))) : List (List (List ℚ)) :=
  LinUtils.extract_weight_diagonal_batch m backproped ext.get_subsampling

/-- Translation of `BatchDiagGGNLinear.bias`: as `DiagGGNLinear.bias` but
with `sum_batch=False`. -/
def BatchDiagGGNLinear.bias (ext : GGNExtension) (m : LinearModule)
    (backproped : List (List (List ℚ))) : List (List ℚ) :=
  LinUtils.extract_bias_diagonal_batch m backproped ext.get_subsampling

/-- Elementwise sum of two equally-shaped matrices (specification-side
vocabulary for "elementwise sum over the sample axis"). -/
def matAdd (a b : List (List ℚ)) : List (List ℚ) :=
  List.zipWith (List.zipWith (· + ·)) a b

/-- Elementwise sum over the leading (sample) axis of a stack of
equally-shaped matrices. -/
def tensorSum : List (List (List ℚ)) → List (List ℚ)
  | [] => []
  | [m] => m
  | m :: rest => matAdd m (tensorSum rest)

/-- Elementwise sum of two equally-shaped vectors. -/
def vecAdd (a b : List ℚ) : List ℚ := List.zipWith (· + ·) a b

/-- Elementwise sum over the leading (sample) axis of a stack of
equally-shaped vectors. -/
def vecSumList : List (List ℚ) → List ℚ
  | [] => []
  | [v] => v
  | v :: rest => vecAdd v (vecSumList rest)

/-! ### Diagonal GGN for convolutions
(src/backpack/extensions/secondorder/diag_ggn/convnd.py) -/

namespace convUtils

/-- Modelled from the spec: `backpack.utils.conv.extract_bias_diagonal`
with `sum_batch=True` is not under src/.  Per section 4.3, "the bias
diagonal sums `S` squared over spatial positions and directions", and
sum-batch mode additionally sums the per-sample contributions over the
batch.  `sqrt_ggn` is indexed `[sample][output-channel][direction and
spatial position, flattened]`.  Note that the function receives only the
module and the backpropagated quantity: no subsampling specification is
passed to it. -/
def extract_bias_diagonal_sum (out_channels : ℕ)
    (sqrt_ggn : List (List (List ℚ))) : List ℚ :=
  (List.range out_channels).map (fun o =>
    (sqrt_ggn.map (fun s => ((s.getD o []).map (fun x => x ^ 2)).sum)).sum)

end convUtils

/-- Translation of `DiagGGNConvND.bias` (convnd.py lines 11-14): the body
is `return convUtils.extract_bias_diagonal(module, backproped, self.N,
sum_batch=True)`.  Unlike `DiagGGNConvND.weight`, which first reads
`ext.get_subsampling()` and reindexes the recorded input, the bias handler
never consults the extension's subsampling specification.  `out_channels`
stands for the module attribute used by the extraction. -/
def DiagGGNConvND.bias (_ext : GGNExtension) (out_channels : ℕ)
    (backproped : List (List (List ℚ))) : List ℚ :=
  convUtils.extract_bias_diagonal_sum out_channels backproped

/-! ### Dropout derivatives (src/backpack/core/derivatives/dropout.py) -/

/-- Translation of `DropoutDerivatives.df`: `scaling = 1 / (1 - p)`, the
recorded output is subsampled, `mask = 1 - eq(output, 0.0).float()`, and
the result is `mask * scaling`. -/
def DropoutDerivatives.df (p : ℚ) (output : List ℚ)
    (subsampling : Option (List ℕ)) : List ℚ :=
  (subsampleList output subsampling).map
    (fun y => (1 - (if y = 0 then (1 : ℚ) else 0)) * (1 / (1 - p)))

/-! ### Softplus derivatives (src/backpack/core/derivatives/softplus.py) -/

/-- The recorded state of a `torch.nn.Softplus` module: the `beta` and
`threshold` attributes, and the recorded forward output. -/
structure SoftplusModule : Type where
  beta : ℚ
  threshold : ℚ
  output : List ℚ
deriving DecidableEq

/-- Translation of `SoftplusDerivatives.df`, with the exponential passed as
a parameter (the embedding is over ℚ): `temp = exp(beta * output)`,
`val = temp / (temp + 1)`, and the result is `where(beta * output >
threshold, 1, val)`. -/
def SoftplusDerivatives.df (e : ℚ → ℚ) (m : SoftplusModule)
    (subsampling : Option (List ℕ)) : List ℚ :=
  (subsampleList m.output subsampling).map (fun y =>
    let temp := e (m.beta * y)
    let val := temp / (temp + 1)
    if m.beta * y > m.threshold then 1 else val)

/-- Translation of `SoftplusDerivatives.d2f`.  The source body is

  `temp = torch.exp(module.beta * output)` followed by
  `val = module.beta * val / (val + 1) ** 2`:

the name `output` is never bound in the function (it is neither a
parameter nor assigned, unlike in `df`, which binds
`output = subsample(module.output, ...)`), and `val` is read on the
right-hand side of its own first assignment.  Every invocation therefore
raises `NameError` on the first statement, which the embedding returns as
an error value. -/
def SoftplusDerivatives.d2f (_m : SoftplusModule) : Except String (List ℚ) :=
  Except.error "NameError: name 'output' is not defined"

/-! ### Extension configuration
(src/backpack/extensions/secondorder/diag_ggn/__init__.py) -/

namespace LossHessianStrategy

/-- Modelled from the spec: the strategy constant `LossHessianStrategy.EXACT`
(module backpack/extensions/secondorder/hbp, not under src/); section 6
lists `loss_hessian_strategy` as ranging over EXACT and SAMPLING.  The
constants are modelled as distinct strings. -/
def EXACT : String := "exact"

/-- Modelled from the spec: the strategy constant
`LossHessianStrategy.SAMPLING` (module backpack/extensions/secondorder/hbp,
not under src/). -/
def SAMPLING : String := "sampling"

end LossHessianStrategy

/-- Translation of the class attribute `VALID_LOSS_HESSIAN_STRATEGIES`
shared by `DiagGGN` and `BatchDiagGGN`. -/
def VALID_LOSS_HESSIAN_STRATEGIES : List String :=
  [LossHessianStrategy.EXACT, LossHessianStrategy.SAMPLING]

/-- The state stored on a diagonal-GGN extension instance by its
constructor: the strategy, the savefield, and the subsampling list. -/
structure DiagGGNState : Type where
  loss_hessian_strategy : String
  savefield : String
  subsampling : Option (List ℕ)
deriving DecidableEq

/-- Translation of `DiagGGN.__init__`: raises `ValueError` when the
strategy is not in `VALID_LOSS_HESSIAN_STRATEGIES`, else stores the
strategy, savefield and subsampling on the instance. -/
def DiagGGN.construct (loss_hessian_strategy savefield : String)
    (subsampling : Option (List ℕ)) : Except String DiagGGNState :=
  if loss_hessian_strategy ∉ VALID_LOSS_HESSIAN_STRATEGIES then
    Except.error "Unknown hessian strategy"
  else
    Except.ok { loss_hessian_strategy := loss_hessian_strategy
                savefield := savefield
                subsampling := subsampling }

/-- Translation of `BatchDiagGGN.__init__`: the identical validation and
storage as `DiagGGN.__init__` (the two classes differ only in the module
handler table, which carries no state relevant here). -/
def BatchDiagGGN.construct (loss_hessian_strategy savefield : String)
    (subsampling : Option (List ℕ)) : Except String DiagGGNState :=
  if loss_hessian_strategy ∉ VALID_LOSS_HESSIAN_STRATEGIES then
    Except.error "Unknown hessian strategy"
  else
    Except.ok { loss_hessian_strategy := loss_hessian_strategy
                savefield := savefield
                subsampling := subsampling }

/-! ### Reduction factor inference (src/test/extensions/problem.py) -/

/-- Translation of `ExtensionsTestProblem.get_reduction_factor`:
`mean_loss = unreduced.flatten().mean()`, `sum_loss =
unreduced.flatten().sum()`; raise when the two coincide; return
`1.0 / numel` when the loss equals the mean, `1.0` when it equals the sum,
else raise.  `torch.allclose` over ℚ is modelled as exact equality. -/
def get_reduction_factor (loss : ℚ) (unreduced_loss : List ℚ) :
    Except String ℚ :=
  let mean_loss := unreduced_loss.sum / (unreduced_loss.length : ℚ)
  let sum_loss := unreduced_loss.sum
  if mean_loss = sum_loss then
    Except.error "Cannot determine reduction factor"
  else if loss = mean_loss then
    Except.ok (1 / (unreduced_loss.length : ℚ))
  else if loss = sum_loss then
    Except.ok 1
  else
    Except.error "Reductions mean or sum do not match with loss"

/-! ### Concrete inputs used by witnesses and counterexamples -/

/-- A parallel group with one sibling of zero output features. -/
def gZero : Group :=
  { children := [{ in_features := 1, out_features := 0, weight := [], bias := none }]
    out_features_list := [0]
    mean_input := none }

/-- A parallel group with two consistent siblings carrying biases. -/
def gTwo : Group :=
  { children :=
      [{ in_features := 2, out_features := 1, weight := [[5, 6]], bias := some [7] },
       { in_features := 2, out_features := 2, weight := [[1, 2], [3, 4]], bias := some [8, 9] }]
    out_features_list := [1, 2]
    mean_input := some [1, 2] }

/-- A parallel group with one bias-free sibling and no mean-input buffer. -/
def gNoBuf : Group :=
  { children := [{ in_features := 1, out_features := 2, weight := [[3], [4]], bias := none }]
    out_features_list := [2]
    mean_input := none }

/-- A linear module with one input feature and one output feature. -/
def mLinEx : LinearModule :=
  { weight := [[1]], bias := some [1], input := [[2], [3]] }

/-- A two-sample, one-direction, one-output backpropagated quantity. -/
def sEx : List (List (List ℚ)) := [[[3]], [[5]]]

/-! ## Helper lemmas -/

theorem dedup_all_eq {α : Type} [DecidableEq α] (v : α) (l : List α) (hne : l ≠ [])
    (hall : ∀ a ∈ l, a = v) : l.dedup = [v] := by
  induction l with
  | nil => exact absurd rfl hne
  | cons a t ih =>
    have ha : a = v := hall a (List.mem_cons_self a t)
    cases t with
    | nil =>
      rw [ha, List.dedup_cons_of_not_mem (List.not_mem_nil v), List.dedup_nil]
    | cons b t2 =>
      have ht : (b :: t2).dedup = [v] :=
        ih (List.cons_ne_nil b t2) (fun x hx => hall x (List.mem_cons_of_mem a hx))
      have hmem : a ∈ b :: t2 := by
        have hb : b = v := hall b (List.mem_cons_of_mem a (List.mem_cons_self b t2))
        rw [ha, ← hb]
        exact List.mem_cons_self b t2
      rw [List.dedup_cons_of_mem hmem, ht]

theorem exists_all_eq_of_dedup_length_one {α : Type} [DecidableEq α] (l : List α)
    (h : l.dedup.length = 1) : ∃ v, ∀ a ∈ l, a = v := by
  obtain ⟨v, hv⟩ := List.length_eq_one.mp h
  refine ⟨v, fun a ha => ?_⟩
  have h2 : a ∈ l.dedup := List.mem_dedup.mpr ha
  rw [hv] at h2
  simpa using h2

theorem init_singleton (l : HBPLinear) :
    HBPParallelLinear.init [{ cls := PyClass.hbpLinear, lin := l }] = Except.ok [l] := rfl

theorem init_nil_error :
    HBPParallelLinear.init [] = Except.error "Expecting layers of type HBPLinear" := rfl

theorem init_all_linear (ls : List HBPLinear) (h : ls ≠ []) :
    HBPParallelLinear.init (ls.map (fun l => { cls := PyClass.hbpLinear, lin := l })) =
      Except.ok ls := by
  have hdedup :
      ((ls.map (fun l => ({ cls := PyClass.hbpLinear, lin := l } : PyLayer))).map
        (fun l => l.cls)).dedup = [PyClass.hbpLinear] := by
    rw [List.map_map]
    refine dedup_all_eq _ _ (by simpa using h) ?_
    intro a ha
    rcases List.mem_map.mp ha with ⟨x, _, rfl⟩
    rfl
  unfold HBPParallelLinear.init
  rw [if_pos hdedup, List.map_map]
  have : ((fun l => PyLayer.lin l) ∘ fun l => ({ cls := PyClass.hbpLinear, lin := l } : PyLayer)) =
      fun l : HBPLinear => l := rfl
  rw [this, List.map_id']

theorem unite_ok (g : Group) (n : ℕ) (b : Bool) (hne : g.children ≠ [])
    (hin : ∀ c ∈ g.children, c.in_features = n)
    (hb : ∀ c ∈ g.children, c.bias.isSome = b) :
    unite g = Except.ok
      ({ children :=
           [{ in_features := n
              out_features := (g.children.map (fun m => m.out_features)).sum
              weight := (g.children.map (fun m => m.weight)).flatten
              bias :=
                if b then some ((g.children.filterMap (fun m => m.bias)).flatten)
                else none }]
         out_features_list := [(g.children.map (fun m => m.out_features)).sum]
         mean_input := g.mean_input }, g.mean_input.isNone) := by
  have hin2 : (g.children.map (fun m => m.in_features)).dedup = [n] := by
    refine dedup_all_eq _ _ (by simpa using hne) ?_
    intro a ha
    rcases List.mem_map.mp ha with ⟨c, hc, rfl⟩
    exact hin c hc
  have hb2 : (g.children.map (fun m => m.bias.isSome)).dedup = [b] := by
    refine dedup_all_eq _ _ (by simpa using hne) ?_
    intro a ha
    rcases List.mem_map.mp ha with ⟨c, hc, rfl⟩
    exact hb c hc
  unfold unite
  rw [hin2, hb2]
  simp [init_singleton]

theorem mkSplitChildren_ne_nil (n : ℕ) (sizes : List ℕ) (w : List (List ℚ))
    (b : Option (List ℚ)) (h : sizes ≠ []) : mkSplitChildren n sizes w b ≠ [] := by
  cases sizes with
  | nil => exact absurd rfl h
  | cons s rest => simp [mkSplitChildren]

theorem split_ok (g : Group) (n : ℕ) (b : Bool) (sizes : List ℕ) (hne : g.children ≠ [])
    (hin : ∀ c ∈ g.children, c.in_features = n)
    (hb : ∀ c ∈ g.children, c.bias.isSome = b)
    (hsum : sizes.sum = (g.children.map (fun m => m.out_features)).sum)
    (hsz : sizes ≠ []) :
    split g sizes = Except.ok
      ({ children := mkSplitChildren n sizes
           ((g.children.map (fun m => m.weight)).flatten)
           (if b then some ((g.children.filterMap (fun m => m.bias)).flatten) else none)
         out_features_list := sizes
         mean_input := g.mean_input }, g.mean_input.isNone) := by
  unfold split
  rw [unite_ok g n b hne hin hb]
  have hinit := init_all_linear
    (mkSplitChildren n sizes ((g.children.map (fun m => m.weight)).flatten)
      (if b then some ((g.children.filterMap (fun m => m.bias)).flatten) else none))
    (mkSplitChildren_ne_nil n sizes _ _ hsz)
  simp [hsum, hinit]

theorem mkSplitChildren_id (n : ℕ) (b : Bool) (cs : List HBPLinear)
    (hin : ∀ c ∈ cs, c.in_features = n)
    (hb : ∀ c ∈ cs, c.bias.isSome = b)
    (hw : ∀ c ∈ cs, c.weight.length = c.out_features)
    (hbl : ∀ c ∈ cs, ∀ bv, c.bias = some bv → bv.length = c.out_features) :
    mkSplitChildren n (cs.map (fun m => m.out_features))
      ((cs.map (fun m => m.weight)).flatten)
      (if b then some ((cs.filterMap (fun m => m.bias)).flatten) else none) = cs := by
  induction cs with
  | nil => cases b <;> rfl
  | cons c t ih =>
    have hci := hin c (List.mem_cons_self c t)
    have hwc := hw c (List.mem_cons_self c t)
    have hbc := hb c (List.mem_cons_self c t)
    have hin' : ∀ x ∈ t, x.in_features = n := fun x hx => hin x (List.mem_cons_of_mem c hx)
    have hb' : ∀ x ∈ t, x.bias.isSome = b := fun x hx => hb x (List.mem_cons_of_mem c hx)
    have hw' : ∀ x ∈ t, x.weight.length = x.out_features :=
      fun x hx => hw x (List.mem_cons_of_mem c hx)
    have hbl' : ∀ x ∈ t, ∀ bv, x.bias = some bv → bv.length = x.out_features :=
      fun x hx => hbl x (List.mem_cons_of_mem c hx)
    cases hbs : c.bias with
    | none =>
      have hbfalse : b = false := by rw [← hbc, hbs]; rfl
      subst hbfalse
      have ih2 := ih hin' hb' hw' hbl'
      rw [if_neg (by simp)] at ih2 ⊢
      simp only [List.map_cons, List.flatten_cons, mkSplitChildren, Option.map_none']
      rw [List.take_left' hwc, List.drop_left' hwc]
      refine List.cons_eq_cons.mpr ⟨?_, ih2⟩
      cases c
      simp_all
    | some bv =>
      have hbtrue : b = true := by rw [← hbc, hbs]; rfl
      have hbv : bv.length = c.out_features := hbl c (List.mem_cons_self c t) bv hbs
      subst hbtrue
      have ih2 := ih hin' hb' hw' hbl'
      rw [if_pos rfl] at ih2 ⊢
      simp only [List.map_cons, List.flatten_cons, List.filterMap_cons, hbs,
        mkSplitChildren, Option.map_some']
      rw [List.take_left' hwc, List.drop_left' hwc,
        List.take_left' hbv, List.drop_left' hbv]
      refine List.cons_eq_cons.mpr ⟨?_, ih2⟩
      cases c
      simp_all

theorem unite_ok_shares (g : Group) (u : Group × Bool) (hu : unite g = Except.ok u) :
    (∃ n, ∀ c ∈ g.children, c.in_features = n) ∧
      (∃ b, ∀ c ∈ g.children, c.bias.isSome = b) := by
  by_cases h1 : ((g.children.map (fun m => m.in_features)).dedup).length = 1
  · by_cases h2 : ((g.children.map (fun m => m.bias.isSome)).dedup).length = 1
    · constructor
      · obtain ⟨v, hv⟩ := exists_all_eq_of_dedup_length_one _ h1
        exact ⟨v, fun c hc => hv _ (List.mem_map.mpr ⟨c, hc, rfl⟩)⟩
      · obtain ⟨v, hv⟩ := exists_all_eq_of_dedup_length_one _ h2
        exact ⟨v, fun c hc => hv _ (List.mem_map.mpr ⟨c, hc, rfl⟩)⟩
    · exfalso
      simp only [unite] at hu
      rw [if_neg (not_ne_iff.mpr h1), if_pos h2] at hu
      exact Except.noConfusion hu
  · exfalso
    simp only [unite] at hu
    rw [if_pos h1] at hu
    exact Except.noConfusion hu

/-! ## Claim theorems -/

/-- C1: for a parallel group of linear siblings that satisfies the merge
preconditions (nonempty, a shared `in_features` value, agreement on bias
presence) and the tensor-shape invariants maintained by the layers (each
sibling's weight has `out_features` rows and its bias, when present, has
`out_features` entries), splitting with the group's original
output-feature partition after merging returns exactly the original
siblings: every resulting weight matrix and bias vector equals the
original one, recovered by pure row slicing of the concatenated
tensors. -/
theorem merge_then_split_is_identity (g : Group) (n : ℕ) (b : Bool)
    (hne : g.children ≠ [])
    (hin : ∀ c ∈ g.children, c.in_features = n)
    (hb : ∀ c ∈ g.children, c.bias.isSome = b)
    (hw : ∀ c ∈ g.children, c.weight.length = c.out_features)
    (hbl : ∀ c ∈ g.children, ∀ bv, c.bias = some bv → bv.length = c.out_features) :
    split g (g.children.map (fun m => m.out_features)) =
      Except.ok ({ children := g.children
                   out_features_list := g.children.map (fun m => m.out_features)
                   mean_input := g.mean_input }, g.mean_input.isNone) := by
  rw [split_ok g n b _ hne hin hb rfl (by simpa using hne)]
  rw [mkSplitChildren_id n b g.children hin hb hw hbl]

/-- Witness for C1 at a concrete two-sibling group with biases. -/
theorem merge_then_split_is_identity_w :
    split gTwo (gTwo.children.map (fun m => m.out_features)) =
      Except.ok ({ children := gTwo.children
                   out_features_list := gTwo.children.map (fun m => m.out_features)
                   mean_input := gTwo.mean_input }, gTwo.mean_input.isNone) :=
  merge_then_split_is_identity gTwo 2 true (by decide) (by decide) (by decide) (by decide)
    (by
      intro c hc bv hbv
      fin_cases hc <;> simp_all [gTwo] <;> (subst hbv; decide))

/-- C6 (amended): for a nonempty parallel group, merging fails exactly
when the siblings do not all share the same `in_features` or do not all
agree on bias presence; given that merging succeeds, splitting fails
exactly when the requested partition does not sum to the merged total
output features or the partition is the empty list (the group constructor
rejects an empty layer list); otherwise both operations succeed. -/
theorem unite_split_error_conditions (g : Group) (hne : g.children ≠ []) :
    ((∃ u, unite g = Except.ok u) ↔
      ((∃ n, ∀ c ∈ g.children, c.in_features = n) ∧
        (∃ b, ∀ c ∈ g.children, c.bias.isSome = b))) ∧
    (∀ sizes : List ℕ,
      (∃ u, unite g = Except.ok u) →
        ((∃ s, split g sizes = Except.ok s) ↔
          (sizes.sum = (g.children.map (fun m => m.out_features)).sum ∧ sizes ≠ []))) := by
  constructor
  · constructor
    · rintro ⟨u, hu⟩
      exact unite_ok_shares g u hu
    · rintro ⟨⟨n, hn⟩, ⟨b, hbb⟩⟩
      exact ⟨_, unite_ok g n b hne hn hbb⟩
  · rintro sizes ⟨u, hu⟩
    obtain ⟨⟨n, hn⟩, ⟨b, hbb⟩⟩ := unite_ok_shares g u hu
    constructor
    · rintro ⟨s, hs⟩
      unfold split at hs
      rw [unite_ok g n b hne hn hbb] at hs
      by_cases hsum : sizes.sum = (g.children.map (fun m => m.out_features)).sum
      · refine ⟨hsum, ?_⟩
        rintro rfl
        simp [hsum, init_nil_error, mkSplitChildren] at hs
        split at hs <;> exact Except.noConfusion hs
      · exfalso
        simp [hsum] at hs
    · rintro ⟨hsum, hsz⟩
      exact ⟨_, split_ok g n b sizes hne hn hbb hsum hsz⟩

/-- Witness for C6 at a concrete two-sibling group: both conditions hold,
so merging succeeds. -/
theorem unite_split_error_conditions_w :
    ∃ u, unite gTwo = Except.ok u :=
  (unite_split_error_conditions gTwo (by decide)).1.mpr
    ⟨⟨2, by decide⟩, ⟨true, by decide⟩⟩

/-- C6 counterexample to the claim as stated: on the one-sibling group
`gZero` with zero total output features, merging succeeds (its
preconditions hold) and the empty partition sums to the merged total, yet
splitting raises, because the group constructor rejects an empty layer
list. -/
theorem split_empty_partition_cex :
    unite gZero = Except.ok
      ({ children := [{ in_features := 1, out_features := 0, weight := [], bias := none }]
         out_features_list := [0]
         mean_input := none }, true) ∧
    List.sum ([] : List ℕ) = (gZero.children.map (fun m => m.out_features)).sum ∧
    split gZero [] = Except.error "Expecting layers of type HBPLinear" :=
  ⟨rfl, rfl, rfl⟩

/-- C7: when the parallel group carries no shared mean-input buffer, both
merging and splitting (with a valid partition) still succeed and return
the composed group, with the recoverable-warning flag set instead of an
exception being raised. -/
theorem composition_without_buffer_warns (g : Group) (n : ℕ) (b : Bool) (sizes : List ℕ)
    (hne : g.children ≠ [])
    (hin : ∀ c ∈ g.children, c.in_features = n)
    (hb : ∀ c ∈ g.children, c.bias.isSome = b)
    (hmi : g.mean_input = none)
    (hsum : sizes.sum = (g.children.map (fun m => m.out_features)).sum)
    (hsz : sizes ≠ []) :
    (∃ u, unite g = Except.ok (u, true)) ∧
      (∃ s, split g sizes = Except.ok (s, true)) := by
  constructor
  · exact ⟨_, by rw [unite_ok g n b hne hin hb, hmi]; rfl⟩
  · exact ⟨_, by rw [split_ok g n b sizes hne hin hb hsum hsz, hmi]; rfl⟩

/-- Witness for C7 at a concrete buffer-less group. -/
theorem composition_without_buffer_warns_w :
    (∃ u, unite gNoBuf = Except.ok (u, true)) ∧
      (∃ s, split gNoBuf [2] = Except.ok (s, true)) :=
  composition_without_buffer_warns gNoBuf 1 false [2] (by decide) (by decide) (by decide)
    (by decide) (by decide) (by decide)

/-- C10: the HBPParallelLinear constructor succeeds exactly when the
argument list is non-empty and every argument's class is HBPLinear; an
empty argument list or any argument of a different class makes it raise
ValueError. -/
theorem hbp_parallel_init_iff (layers : List PyLayer) :
    (∃ cs, HBPParallelLinear.init layers = Except.ok cs) ↔
      (layers ≠ [] ∧ ∀ l ∈ layers, l.cls = PyClass.hbpLinear) := by
  constructor
  · rintro ⟨cs, hcs⟩
    by_cases h : (layers.map (fun l => l.cls)).dedup = [PyClass.hbpLinear]
    · constructor
      · rintro rfl
        simp at h
      · intro l hl
        have hmem : l.cls ∈ (layers.map (fun l => l.cls)).dedup :=
          List.mem_dedup.mpr (List.mem_map.mpr ⟨l, hl, rfl⟩)
        rw [h] at hmem
        simpa using hmem
    · exfalso
      unfold HBPParallelLinear.init at hcs
      rw [if_neg h] at hcs
      exact Except.noConfusion hcs
  · rintro ⟨hne, hall⟩
    have hd : (layers.map (fun l => l.cls)).dedup = [PyClass.hbpLinear] := by
      refine dedup_all_eq _ _ (by simpa using hne) ?_
      intro a ha
      rcases List.mem_map.mp ha with ⟨x, hx, rfl⟩
      exact hall x hx
    exact ⟨_, by unfold HBPParallelLinear.init; rw [if_pos hd]⟩

/-- Witness for C10 at a concrete one-layer argument list. -/
theorem hbp_parallel_init_iff_w :
    ∃ cs, HBPParallelLinear.init
      [{ cls := PyClass.hbpLinear
         lin := { in_features := 1, out_features := 1, weight := [[1]], bias := none } }] =
      Except.ok cs :=
  (hbp_parallel_init_iff _).mpr ⟨by decide, by decide⟩

theorem vecSumList_map_range {α : Type} (out : ℕ) (f : α → ℕ → ℚ) (xs : List α)
    (h : xs ≠ []) :
    vecSumList (xs.map (fun x => (List.range out).map (fun o => f x o))) =
      (List.range out).map (fun o => (xs.map (fun x => f x o)).sum) := by
  induction xs with
  | nil => exact absurd rfl h
  | cons x t ih =>
    cases t with
    | nil => simp [vecSumList]
    | cons y t2 =>
      simp only [List.map_cons, vecSumList]
      rw [← List.map_cons (fun x => (List.range out).map (fun o => f x o)) y t2,
        ih (List.cons_ne_nil y t2)]
      simp [vecAdd, List.zipWith_map, List.zipWith_same, List.sum_cons]

theorem tensorSum_map_range {α : Type} (out inF : ℕ) (f : α → ℕ → ℕ → ℚ) (xs : List α)
    (h : xs ≠ []) :
    tensorSum (xs.map (fun x =>
        (List.range out).map (fun o => (List.range inF).map (fun i => f x o i)))) =
      (List.range out).map (fun o =>
        (List.range inF).map (fun i => (xs.map (fun x => f x o i)).sum)) := by
  induction xs with
  | nil => exact absurd rfl h
  | cons x t ih =>
    cases t with
    | nil => simp [tensorSum]
    | cons y t2 =>
      simp only [List.map_cons, tensorSum]
      rw [← List.map_cons
          (fun x => (List.range out).map (fun o => (List.range inF).map (fun i => f x o i)))
          y t2,
        ih (List.cons_ne_nil y t2)]
      simp [matAdd, List.zipWith_map, List.zipWith_same, List.sum_cons]

/-- C5: for every linear layer, every backpropagated quantity and every
nonempty (sub)batch, the aggregate diagonal GGN computed by
`DiagGGNLinear` (sum-batch mode) equals the elementwise sum over the
sample axis of the per-sample diagonal GGN computed by
`BatchDiagGGNLinear` (no-sum mode), for both the weight and the bias
parameter. -/
theorem diag_ggn_linear_sum_consistency (ext : GGNExtension) (m : LinearModule)
    (backproped : List (List (List ℚ)))
    (hS : subsampleList backproped ext.get_subsampling ≠ [])
    (hX : subsampleList m.input ext.get_subsampling ≠ []) :
    DiagGGNLinear.weight ext m backproped =
        tensorSum (BatchDiagGGNLinear.weight ext m backproped) ∧
      DiagGGNLinear.bias ext m backproped =
        vecSumList (BatchDiagGGNLinear.bias ext m backproped) := by
  have hzip : (subsampleList backproped ext.get_subsampling).zip
      (subsampleList m.input ext.get_subsampling) ≠ [] := by
    intro hcon
    rcases List.zip_eq_nil_iff.mp hcon with h | h
    · exact hS h
    · exact hX h
  constructor
  · unfold DiagGGNLinear.weight BatchDiagGGNLinear.weight
      LinUtils.extract_weight_diagonal_sum LinUtils.extract_weight_diagonal_batch
    exact (tensorSum_map_range m.out_features m.in_features
      (fun p o i => (p.1.map (fun srow => (srow.getD o 0 * p.2.getD i 0) ^ 2)).sum)
      ((subsampleList backproped ext.get_subsampling).zip
        (subsampleList m.input ext.get_subsampling)) hzip).symm
  · unfold DiagGGNLinear.bias BatchDiagGGNLinear.bias
      LinUtils.extract_bias_diagonal_sum LinUtils.extract_bias_diagonal_batch
    exact (vecSumList_map_range m.out_features
      (fun s o => (s.map (fun srow => srow.getD o 0 ^ 2)).sum)
      (subsampleList backproped ext.get_subsampling) hS).symm

/-- Witness for C5 at a concrete one-feature linear layer with a
two-sample batch and full-batch subsampling. -/
theorem diag_ggn_linear_sum_consistency_w :
    DiagGGNLinear.weight { subsampling := none } mLinEx sEx =
        tensorSum (BatchDiagGGNLinear.weight { subsampling := none } mLinEx sEx) ∧
      DiagGGNLinear.bias { subsampling := none } mLinEx sEx =
        vecSumList (BatchDiagGGNLinear.bias { subsampling := none } mLinEx sEx) :=
  diag_ggn_linear_sum_consistency { subsampling := none } mLinEx sEx
    (by decide) (by decide)

/-- C2: contrary to the claim, the bias diagonal of the convolution
extension is taken over the full-batch backpropagated quantity: the
handler passes no subsampling information to the extraction, so its result
is the same regardless of the extension's subsampling specification, and
at the failing input (batch of two identical samples, subsampling [0]) it
returns the full-batch value 2 while extraction on the quantity reindexed
to the requested subset returns 1. -/
theorem convnd_bias_ignores_subsampling :
    DiagGGNConvND.bias { subsampling := some [0] } 1 [[[1]], [[1]]] =
        DiagGGNConvND.bias { subsampling := none } 1 [[[1]], [[1]]] ∧
      DiagGGNConvND.bias { subsampling := some [0] } 1 [[[1]], [[1]]] = [2] ∧
      convUtils.extract_bias_diagonal_sum 1
          (subsampleList [[[(1 : ℚ)]], [[1]]] (some [0])) = [1] :=
  ⟨rfl,
    by norm_num [DiagGGNConvND.bias, convUtils.extract_bias_diagonal_sum,
      List.range_succ, List.range_zero, List.getD_cons_zero],
    by norm_num [convUtils.extract_bias_diagonal_sum, subsampleList,
      List.range_succ, List.range_zero, List.getD_cons_zero,
      List.filterMap_cons, List.getElem?_cons_zero]⟩

/-- C3 (amended): for a Dropout layer with p = 0, df is 1 at every entry
whose recorded output is nonzero and 0 at every entry whose recorded
output equals 0 — the zero-equality mask used by the backward rule cannot
distinguish dropped entries from genuinely zero outputs, so even at p = 0
a zero-valued output entry yields 0 rather than 1. -/
theorem dropout_df_at_p_zero (output : List ℚ) :
    DropoutDerivatives.df 0 output none =
      output.map (fun y => if y = 0 then 0 else 1) := by
  simp only [DropoutDerivatives.df, subsampleList]
  refine List.map_congr_left ?_
  intro y _
  by_cases hy : y = 0 <;> simp [hy]

/-- Witness for C3 at a concrete nonzero recorded output. -/
theorem dropout_df_at_p_zero_w :
    DropoutDerivatives.df 0 [(2 : ℚ)] none =
      List.map (fun y => if y = 0 then 0 else 1) [(2 : ℚ)] :=
  dropout_df_at_p_zero [2]

/-- C3 counterexample to the claim as stated: at p = 0 a recorded output
entry equal to 0 yields df = 0, not the claimed constant 1. -/
theorem dropout_df_zero_entry_cex :
    DropoutDerivatives.df 0 [(0 : ℚ)] none ≠ [(1 : ℚ)] := by
  norm_num [DropoutDerivatives.df, subsampleList]

/-- C4: contrary to the claim, the Softplus second-derivative routine
never returns the stable expression: its body reads the names `output`
and `val` before they are bound, so every call raises NameError — here
evaluated at the module with beta 1, threshold 20 and recorded
output [0]. -/
theorem softplus_d2f_raises :
    SoftplusDerivatives.d2f { beta := 1, threshold := 20, output := [0] } =
      Except.error "NameError: name 'output' is not defined" := rfl

/-- C8: constructing DiagGGN or BatchDiagGGN with a loss_hessian_strategy
other than EXACT or SAMPLING raises an error, and constructing with EXACT
or SAMPLING succeeds and stores that strategy (with the savefield and the
subsampling specification) on the extension instance. -/
theorem diag_ggn_strategy_validation (s sf : String) (sub : Option (List ℕ)) :
    ((∃ e, DiagGGN.construct s sf sub = Except.error e) ↔
        ¬(s = LossHessianStrategy.EXACT ∨ s = LossHessianStrategy.SAMPLING)) ∧
      ((s = LossHessianStrategy.EXACT ∨ s = LossHessianStrategy.SAMPLING) →
        DiagGGN.construct s sf sub =
          Except.ok { loss_hessian_strategy := s, savefield := sf, subsampling := sub }) ∧
      ((∃ e, BatchDiagGGN.construct s sf sub = Except.error e) ↔
        ¬(s = LossHessianStrategy.EXACT ∨ s = LossHessianStrategy.SAMPLING)) ∧
      ((s = LossHessianStrategy.EXACT ∨ s = LossHessianStrategy.SAMPLING) →
        BatchDiagGGN.construct s sf sub =
          Except.ok { loss_hessian_strategy := s, savefield := sf, subsampling := sub }) := by
  by_cases h : s = LossHessianStrategy.EXACT ∨ s = LossHessianStrategy.SAMPLING
  · have hm : s ∈ VALID_LOSS_HESSIAN_STRATEGIES := by
      rcases h with rfl | rfl <;> simp [VALID_LOSS_HESSIAN_STRATEGIES]
    simp [DiagGGN.construct, BatchDiagGGN.construct, hm, h]
  · have hm : s ∉ VALID_LOSS_HESSIAN_STRATEGIES := by
      simpa [VALID_LOSS_HESSIAN_STRATEGIES] using h
    simp [DiagGGN.construct, BatchDiagGGN.construct, hm, h]

/-- Witness for C8: EXACT is accepted and stored. -/
theorem diag_ggn_strategy_validation_w :
    DiagGGN.construct LossHessianStrategy.EXACT "diag_ggn_exact" none =
      Except.ok { loss_hessian_strategy := LossHessianStrategy.EXACT
                  savefield := "diag_ggn_exact"
                  subsampling := none } :=
  (diag_ggn_strategy_validation LossHessianStrategy.EXACT "diag_ggn_exact" none).2.1
    (Or.inl rfl)

/-- C9: get_reduction_factor raises exactly when the mean-reduced and
sum-reduced values of the unreduced loss coincide or the given loss
matches neither reduction; otherwise it returns 1/numel when the loss
matches the mean reduction and 1 when it matches the sum reduction. -/
theorem get_reduction_factor_spec (loss : ℚ) (u : List ℚ) :
    ((∃ e, get_reduction_factor loss u = Except.error e) ↔
        (u.sum / (u.length : ℚ) = u.sum ∨
          (loss ≠ u.sum / (u.length : ℚ) ∧ loss ≠ u.sum))) ∧
      (u.sum / (u.length : ℚ) ≠ u.sum → loss = u.sum / (u.length : ℚ) →
        get_reduction_factor loss u = Except.ok (1 / (u.length : ℚ))) ∧
      (u.sum / (u.length : ℚ) ≠ u.sum → loss = u.sum →
        get_reduction_factor loss u = Except.ok 1) := by
  unfold get_reduction_factor
  by_cases h1 : u.sum / (u.length : ℚ) = u.sum
  · simp [h1]
  · by_cases h2 : loss = u.sum / (u.length : ℚ)
    · by_cases h3 : loss = u.sum
      · exact absurd (h2.symm.trans h3) h1
      · simp [h1, h2, h3]
    · by_cases h3 : loss = u.sum
      · subst h3
        simp [h1, h2]
      · simp [h1, h2, h3]

/-- Witness for C9: a sum-reduced loss over two unit entries is matched
with factor 1. -/
theorem get_reduction_factor_spec_w :
    get_reduction_factor 2 [1, 1] = Except.ok 1 :=
  (get_reduction_factor_spec 2 [1, 1]).2.2 (by norm_num) (by norm_num)

end Backpack
